import Mathlib

/-!
A shallow Lean embedding of the asset-windowing and buffering engine of
`monte/asset_manager.py`, together with theorems settling the specification's
claims about it.

Modelling conventions:
* a pandas `DataFrame` of bar rows becomes a `List` of rows, in index order
  (head = oldest row, tail end = newest row);
* an aware Python `datetime` instant becomes a `DateTime` value: a calendar
  date plus a time-of-day, compared lexicographically (this is exactly how
  aware datetime comparison behaves, and `astimezone` never changes the
  instant, only its representation);
* numeric cell values become `Int` (the claims never depend on float
  arithmetic, only on which value is stored where);
* a derived-column cell that pandas would hold as `NaN` (never assigned)
  becomes `none`, an assigned cell becomes `some v`;
* a Python operation that raises becomes `none` / `.error e`; a normal
  return becomes `some` / `.ok`.
-/

set_option maxHeartbeats 1000000

/-- An absolute point in time: a calendar date (as a day number) plus a
time-of-day (as a subdivision number within the day). Comparison of aware
Python datetimes is comparison of instants, i.e. lexicographic here. -/
structure DateTime where
  date : Nat
  tod : Nat
deriving DecidableEq, Repr

/-- `a < b` on instants (Python `datetime.__lt__`), lexicographic. -/
def dtlt (a b : DateTime) : Bool :=
  decide (a.date < b.date) || (a.date == b.date && decide (a.tod < b.tod))

/-- One bar row restricted to the base columns (`BASE_COLUMNS` in
`asset_manager.py`): timestamp, open, high, low, close, volume, trade_count,
vwap, datetime. The `timestamp` column holds the raw ISO timestamp, which we
model by the instant it parses to; `datetime` holds the parsed instant. -/
structure Bar where
  timestamp : DateTime
  open_ : Int
  high : Int
  low : Int
  close : Int
  volume : Int
  trade_count : Int
  vwap : Int
  datetime : DateTime
deriving DecidableEq, Repr

/-- One row of an Asset's main dataframe `self.df`: the base columns plus one
cell per derived column. A cell is `none` while it still holds the `NaN` that
`pd.concat` put there, and `some v` once `df.at[...] = v` assigned it. -/
structure Row where
  bar : Bar
  derived : List (String × Option Int)
deriving DecidableEq, Repr

/-- `derived_columns.decorator.DFIdentifier`: the (symbol, timestamp)
identifier built for the dataframe before derived columns are computed. -/
structure DFIdentifier where
  symbol : String
  timestamp : DateTime
deriving DecidableEq, Repr

/-- A derived-column function: `(identifier, current dataframe) -> scalar`. -/
def DerivedFn : Type := DFIdentifier → List Row → Int

/-- `monte.machine_settings.MachineSettings`, restricted to the fields the
claims touch. `time_frame_is_day` models `time_frame.unit == TimeFrameUnit.Day`;
`start_date` and `end_date` are day numbers (the simulation range).
(`data_buffer_days` and `time_zone` play no role in any claim.) -/
structure MachineSettings where
  start_date : Nat
  end_date : Nat
  time_frame_is_day : Bool
  derived_columns : List (String × DerivedFn)
  max_rows_in_df : Nat
  start_buffer_days : Nat

/-- `monte.asset_manager.Asset`, restricted to the state the claims touch:
the main dataframe `df` (the Window), the pending `buffer`, and the warm-up
flag `_df_has_start_buffer_rows`. -/
structure Asset where
  symbol : String
  df : List Row
  buffer : List Bar
  _df_has_start_buffer_rows : Bool
deriving DecidableEq, Repr

/-- `Asset.__init__`: `reset_df()` and `reset_buffer()` create empty frames
and the warm-up flag starts `False`. -/
def Asset.init (symbol : String) : Asset :=
  { symbol := symbol, df := [], buffer := [], _df_has_start_buffer_rows := false }

/-- `Asset._count_unique_days_in_dataframe`: the number of distinct calendar
dates among `str(datetime.date())` over the `datetime` column of `df`. -/
def _count_unique_days_in_dataframe (df : List Row) : Nat :=
  ((df.map (fun r => r.bar.datetime.date)).dedup).length

/-- Assign cell `key` of a derived-column mapping (pandas `df.at[row, key] = v`):
the first entry whose column name is `key` gets the value `some v`. -/
def updateDerived (key : String) (v : Int) : List (String × Option Int) → List (String × Option Int)
  | [] => []
  | (k, w) :: rest => if k == key then (k, some v) :: rest else (k, w) :: updateDerived key v rest

/-- `self.df.at[self.df.index[-1], column_title] = v`: assign derived cell
`key` on the last row of the dataframe. On an empty dataframe this models
nothing (the caller has already indexed `iloc[-1]`, so it is never reached
empty). -/
def setLastDerived (key : String) (v : Int) (df : List Row) : List Row :=
  match df.getLast? with
  | none => df
  | some last => df.dropLast ++ [{ last with derived := updateDerived key v last.derived }]

/-- The derived-column loop of `Asset.increment_dataframe`: for each
`(column_title, column_func)` in order, evaluate `column_func(identifier, df)`
on the dataframe in its current state and store the result in the last row. -/
def compute_derived_columns (ms : MachineSettings) (ident : DFIdentifier) (df : List Row) : List Row :=
  ms.derived_columns.foldl (fun acc p => setLastDerived p.1 (p.2 ident acc) acc) df

/-- The all-`NaN` derived cells a freshly concatenated row starts with: one
unassigned cell per configured derived column. -/
def blankDerived (specs : List (String × DerivedFn)) : List (String × Option Int) :=
  specs.map (fun p => (p.1, (none : Option Int)))

/-- `pd.concat([self.df, self.buffer.head(1)], ignore_index=True)`: append the
buffer's first row (if any) to the bottom of `df`, with every derived cell of
the new row `NaN` (the buffer has only base columns). -/
def appended_df (ms : MachineSettings) (a : Asset) : List Row :=
  match a.buffer.head? with
  | some b => a.df ++ [{ bar := b, derived := blankDerived ms.derived_columns }]
  | none => a.df

/-- The capacity check of `Asset.increment_dataframe`: if the dataframe now
exceeds `max_rows_in_df`, drop its top (oldest) row. -/
def evict (ms : MachineSettings) (df : List Row) : List Row :=
  if df.length > ms.max_rows_in_df then df.tail else df

/-- `Asset.increment_dataframe` (`asset_manager.py` lines 94-123), step by
step: move the buffer head to the bottom of `df`; drop `df`'s top row if over
capacity; then, if the warm-up flag is set or the distinct-day count reaches
`start_buffer_days`, set the flag, build a `DFIdentifier` from the last row's
timestamp (`self.df.iloc[-1].timestamp` — an `IndexError`, modelled `none`,
if `df` is empty) and compute every derived column into the last row.
Returns `some` of the new state on normal return (Python returns `None`
without any success/failure signal), `none` on an uncaught exception. -/
def Asset.increment_dataframe (ms : MachineSettings) (a : Asset) : Option Asset :=
  let df2 := evict ms (appended_df ms a)
  let buffer1 := a.buffer.tail
  if a._df_has_start_buffer_rows || decide (_count_unique_days_in_dataframe df2 ≥ ms.start_buffer_days) then
    match df2.getLast? with
    | none => none
    | some lastRow =>
      some { a with
              df := compute_derived_columns ms ⟨a.symbol, lastRow.bar.timestamp⟩ df2,
              buffer := buffer1,
              _df_has_start_buffer_rows := true }
  else
    some { a with df := df2, buffer := buffer1 }

/-- `Asset.price`: `self.df.iloc[-1].vwap` (raises, i.e. `none`, on an empty
dataframe). -/
def Asset.price (a : Asset) : Option Int :=
  (a.df.getLast?).map (fun r => r.bar.vwap)

/-- `Asset.timestamp`: `self.df.iloc[-1].timestamp`. -/
def Asset.timestampRead (a : Asset) : Option DateTime :=
  (a.df.getLast?).map (fun r => r.bar.timestamp)

/-- `Asset.datetime`: `self.df.iloc[-1].datetime`. -/
def Asset.datetimeRead (a : Asset) : Option DateTime :=
  (a.df.getLast?).map (fun r => r.bar.datetime)

/-- Every derived cell of a row has been assigned. -/
def Row.allSet (r : Row) : Bool :=
  r.derived.all (fun p => p.2.isSome)

/-- No derived cell of a row has been assigned (all still `NaN`). -/
def Row.allUnset (r : Row) : Bool :=
  r.derived.all (fun p => p.2.isNone)

/-- The timestamp column of a dataframe, in row order. -/
def df_ts (df : List Row) : List DateTime :=
  df.map (fun r => r.bar.timestamp)

/-- The timestamps of a list of pending bars, in order. -/
def buf_ts (b : List Bar) : List DateTime :=
  b.map (fun bar => bar.timestamp)

/-- `monte.dates.TradingDay`: one trading session — a calendar date with its
market open and close instants. -/
structure TradingDay where
  date : Nat
  open_time : DateTime
  close_time : DateTime
deriving DecidableEq, Repr

/-- A raw bar row as returned by the Bar Source (`get_bulk_bars`), keyed by
the short Alpaca field codes `t, o, h, l, c, v, n, vw`; `t` is modelled by the
instant the ISO string parses to. -/
structure RawRow where
  t : DateTime
  o : Int
  h : Int
  l : Int
  c : Int
  v : Int
  n : Int
  vw : Int
deriving DecidableEq, Repr

/-- The per-row filter loop of `_get_alpaca_data` (lines 146-170): walk the
trading days accumulating `date_in_buffer_range` (first component) and
whether the row has been dropped for being outside market hours (second
component, modelled as a flag — pandas raises on a double drop, which cannot
happen when session dates are distinct). A row survives iff its date matched
some trading day and it was not dropped by the intraday bound check; the
bound check is skipped entirely when the time frame unit is `Day`. -/
def rowSurvives (ms : MachineSettings) (trading_days : List TradingDay) (row_datetime : DateTime) : Bool :=
  let res := trading_days.foldl
    (fun (acc : Bool × Bool) td =>
      if row_datetime.date == td.date then
        (true,
         acc.2 || (!ms.time_frame_is_day &&
                   (dtlt row_datetime td.open_time || dtlt td.close_time row_datetime)))
      else acc)
    (false, false)
  res.1 && !res.2

/-- The column renaming and `datetime` derivation of `_get_alpaca_data`
(lines 176-192): `t/o/h/l/c/v/n/vw` become the canonical base columns, and
`datetime` is `isoparse(row.timestamp).astimezone(UTC)` — the same instant as
the timestamp, since `astimezone` preserves the instant. -/
def toBar (r : RawRow) : Bar :=
  { timestamp := r.t, open_ := r.o, high := r.h, low := r.l, close := r.c,
    volume := r.v, trade_count := r.n, vwap := r.vw, datetime := r.t }

/-- `_get_alpaca_data` (lines 135-196), parameterised by its two external
collaborators: `raw_data` is what `get_bulk_bars` returned (per symbol, in
row order) and `trading_days` is what `get_list_of_trading_days_in_range`
returned. Each symbol's rows are filtered by the session/bounds check,
re-indexed contiguously (inherent in the list model) and renamed to the
canonical schema with the derived `datetime` column. -/
def _get_alpaca_data (ms : MachineSettings) (trading_days : List TradingDay)
    (raw_data : List (String × List RawRow)) : List (String × List Bar) :=
  raw_data.map (fun p => (p.1, (p.2.filter (fun r => rowSurvives ms trading_days r.t)).map toBar))

/-- One item on the `buffered_df_queue` channel, as the consumer sees it:
a per-symbol chunk mapping, the terminal sentinel string `"DONE"`, or any
other value (neither a `dict` nor `"DONE"`). -/
inductive QueueMsg where
  | chunk (data : List (String × List Bar))
  | done
  | other
deriving DecidableEq, Repr

/-- The exceptions the manager paths can raise: `StopIteration` at the
sentinel, `TypeError` on a malformed channel item, `KeyError` when a chunk
names an unwatched symbol, and the `IndexError` of `iloc[-1]` on an empty
dataframe. `blocked` models `queue.get()` on a channel that never receives
anything (the call would block forever). -/
inductive SimError where
  | endOfSimulation
  | invalidChunkType
  | keyError
  | indexError
  | blocked
deriving DecidableEq, Repr

/-- `monte.asset_manager.AssetManager`, restricted to the state the claims
touch: the registry of watched Assets (a `dict`, modelled as an
insertion-ordered association list with unique keys), the channel contents
still to be consumed, the running flag and the reference symbol. -/
structure AssetManager where
  watchedAssets : List (String × Asset)
  queue : List QueueMsg
  simulation_running : Bool
  _reference_symbol : String
deriving Repr

/-- `symbol in self.watched_assets.keys()`. -/
def AssetManager.is_watching_asset (m : AssetManager) (symbol : String) : Bool :=
  m.watchedAssets.any (fun p => p.1 == symbol)

/-- `AssetManager.watch_asset`: add the symbol (at the end, as a `dict`
insertion does) unless it is already tracked; idempotent. -/
def AssetManager.watch_asset (m : AssetManager) (symbol : String) : AssetManager :=
  if m.is_watching_asset symbol then m
  else { m with watchedAssets := m.watchedAssets ++ [(symbol, Asset.init symbol)] }

/-- `AssetManager.unwatch_asset` (lines 388-397): if the symbol is tracked,
remove it unless it is the reference symbol, and return `True` either way;
return `False` if it was not tracked. -/
def AssetManager.unwatch_asset (m : AssetManager) (symbol : String) : Bool × AssetManager :=
  if m.is_watching_asset symbol then
    if symbol == m._reference_symbol then (true, m)
    else (true, { m with watchedAssets := m.watchedAssets.filter (fun p => !(p.1 == symbol)) })
  else (false, m)

/-- `AssetManager.__init__`: an empty registry, then the fixed reference
symbol `"SPY"` is watched; the channel starts empty and the simulation is
not running. -/
def AssetManager.init : AssetManager :=
  let m0 : AssetManager :=
    { watchedAssets := [], queue := [], simulation_running := false,
      _reference_symbol := ("SPY" : String) }
  m0.watch_asset m0._reference_symbol

/-- `self.watched_assets[symbol].buffer = new_buffer`: `none` models the
`KeyError` raised when the chunk names a symbol that is not watched. -/
def setBuffer (assets : List (String × Asset)) (symbol : String) (b : List Bar) :
    Option (List (String × Asset)) :=
  if assets.any (fun p => p.1 == symbol) then
    some (assets.map (fun p => if p.1 == symbol then (p.1, { p.2 with buffer := b }) else p))
  else none

/-- The assignment loop of `_populate_buffers`: `for symbol, new_buffer in
new_data.items(): self.watched_assets[symbol].buffer = new_buffer`. -/
def assignBuffers (assets : List (String × Asset)) :
    List (String × List Bar) → Except SimError (List (String × Asset))
  | [] => .ok assets
  | (symbol, b) :: rest =>
    match setBuffer assets symbol b with
    | some assets1 => assignBuffers assets1 rest
    | none => .error .keyError

/-- `AssetManager._populate_buffers` (lines 315-326): take the next item off
the channel; a `dict` refills every symbol it names, the string `"DONE"`
raises `StopIteration`, anything else raises `TypeError`. -/
def AssetManager._populate_buffers (m : AssetManager) : Except SimError AssetManager :=
  match m.queue with
  | [] => .error .blocked
  | msg :: rest =>
    match msg with
    | .chunk data =>
      match assignBuffers m.watchedAssets data with
      | .ok assets1 => .ok { m with watchedAssets := assets1, queue := rest }
      | .error e => .error e
    | .done => .error .endOfSimulation
    | .other => .error .invalidChunkType

/-- The per-asset loop of `increment_dataframes`: call `increment_dataframe`
on every watched asset in registry order, propagating the first exception. -/
def incrementAll (ms : MachineSettings) :
    List (String × Asset) → Except SimError (List (String × Asset))
  | [] => .ok []
  | (s, a) :: rest =>
    match a.increment_dataframe ms with
    | some a1 =>
      match incrementAll ms rest with
      | .ok rest1 => .ok ((s, a1) :: rest1)
      | .error e => .error e
    | none => .error .indexError

/-- `AssetManager.increment_dataframes` (lines 287-299), the `advance()` of
the spec: if any asset's buffer is empty, pull the next chunk from the
channel via `_populate_buffers`; then call `increment_dataframe` once on
every watched asset. -/
def AssetManager.increment_dataframes (ms : MachineSettings) (m : AssetManager) :
    Except SimError AssetManager :=
  match (if m.watchedAssets.any (fun p => p.2.buffer.isEmpty) then m._populate_buffers else .ok m) with
  | .error e => .error e
  | .ok m1 =>
    match incrementAll ms m1.watchedAssets with
    | .ok assets1 => .ok { m1 with watchedAssets := assets1 }
    | .error e => .error e

/-- One consumer-side operation on a single Asset, for stating invariants
over arbitrary runs: a buffer refill (what `_populate_buffers` or
`add_start_buffer_data` does to this asset) or one `increment_dataframe`
call. -/
inductive AssetOp where
  | refill (b : List Bar)
  | admit_next
deriving Repr

/-- Apply one `AssetOp`. -/
def apply_op (ms : MachineSettings) (a : Asset) : AssetOp → Option Asset
  | .refill b => some { a with buffer := b }
  | .admit_next => a.increment_dataframe ms

/-- Run a sequence of `AssetOp`s, stopping at the first exception. -/
def run_ops (ms : MachineSettings) (a : Asset) : List AssetOp → Option Asset
  | [] => some a
  | op :: rest =>
    match apply_op ms a op with
    | some a1 => run_ops ms a1 rest
    | none => none

/-- The timestamps a run can ever admit: the refill payload timestamps, in
operation order. -/
def ops_ts : List AssetOp → List DateTime
  | [] => []
  | .refill b :: rest => buf_ts b ++ ops_ts rest
  | .admit_next :: rest => ops_ts rest

/-- A registry operation on the manager, for stating the reference-symbol
invariant over arbitrary watch/unwatch sequences. -/
inductive RegOp where
  | watch (s : String)
  | unwatch (s : String)
deriving Repr

/-- Apply one registry operation (`unwatch_asset`'s Boolean result is
discarded here). -/
def apply_reg_op (m : AssetManager) : RegOp → AssetManager
  | .watch s => m.watch_asset s
  | .unwatch s => (m.unwatch_asset s).2

/-- Run a sequence of registry operations. -/
def run_reg_ops (m : AssetManager) (ops : List RegOp) : AssetManager :=
  ops.foldl apply_reg_op m

/-- Modelled from the spec: the Calendar Provider `sessions_in_range`
(`monte.dates.get_list_of_trading_days_in_range` — `monte/dates.py` is not
under `src/`). Per the spec, "given a date range, returns an ordered sequence
of trading sessions"; with the full trading calendar as a sorted list of day
numbers, the sessions in a range are exactly the calendar days inside it. -/
def get_list_of_trading_days_in_range (calendar : List Nat) (s e : Nat) : List Nat :=
  calendar.filter (fun d => decide (s ≤ d) && decide (d ≤ e))

/-- The warm-up range computation of `AssetManager.add_start_buffer_data`
(lines 331-345): list the trading days from `start_date - start_buffer_days
- 30` days through `end_date - 1` day, then fetch from the day at index
`-start_buffer_days` through the last day of that list. Day arithmetic is on
day numbers; `none` models the `IndexError` when the list is too short
(requires `1 ≤ start_buffer_days ≤ length`, matching Python's negative
indexing on the in-range cases). -/
def add_start_buffer_data_range (ms : MachineSettings) (calendar : List Nat) :
    Option (Nat × Nat) :=
  let trading_days_before_current :=
    get_list_of_trading_days_in_range calendar
      (ms.start_date - ms.start_buffer_days - 30) (ms.end_date - 1)
  match trading_days_before_current.get? (trading_days_before_current.length - ms.start_buffer_days),
        trading_days_before_current.getLast? with
  | some s, some e => some (s, e)
  | _, _ => none

/-- `dtlt` as a relation, for `Pairwise` statements. -/
def dtltP (a b : DateTime) : Prop := dtlt a b = true

instance : DecidableRel dtltP := fun a b => by
  unfold dtltP; infer_instance

/-! ## Concrete data used to exercise the theorems -/

/-- A bar at the given date and time-of-day with all price fields zero. -/
def sampleBar (date tod : Nat) : Bar :=
  { timestamp := ⟨date, tod⟩, open_ := 0, high := 0, low := 0, close := 0,
    volume := 0, trade_count := 0, vwap := 0, datetime := ⟨date, tod⟩ }

/-- Settings with no derived columns, capacity 10, warm-up threshold 100. -/
def msNoWarm : MachineSettings :=
  { start_date := 0, end_date := 0, time_frame_is_day := true,
    derived_columns := [], max_rows_in_df := 10, start_buffer_days := 100 }

/-- Settings with no derived columns, capacity 3, warm-up threshold 100. -/
def msCap3 : MachineSettings :=
  { start_date := 0, end_date := 0, time_frame_is_day := true,
    derived_columns := [], max_rows_in_df := 3, start_buffer_days := 100 }

/-- A manager whose channel already holds two single-symbol chunks with
out-of-order timestamps (day 5, then day 3) — exactly what the consumer
would see if the producer's fetches overlapped. -/
def mgrOutOfOrder : AssetManager :=
  { AssetManager.init with queue :=
      [.chunk [(("SPY" : String), [sampleBar 5 0])],
       .chunk [(("SPY" : String), [sampleBar 3 0])]] }

/-- A well-ordered refill followed by two admissions. -/
def opsOrdered : List AssetOp :=
  [.refill [sampleBar 1 0, sampleBar 2 0], .admit_next, .admit_next]

/-- The asset state `opsOrdered` produces from a fresh `"SPY"` asset under
`msCap3`. -/
def assetOrdered : Asset :=
  { symbol := ("SPY" : String),
    df := [{ bar := sampleBar 1 0, derived := [] }, { bar := sampleBar 2 0, derived := [] }],
    buffer := [], _df_has_start_buffer_rows := false }

/-- Settings with a single constant derived column and warm-up threshold 1. -/
def msOneCol : MachineSettings :=
  { start_date := 0, end_date := 0, time_frame_is_day := true,
    derived_columns := [(("d" : String), fun _ _ => (42 : Int))],
    max_rows_in_df := 10, start_buffer_days := 1 }

/-- A fresh `"SPY"` asset with one pending bar. -/
def assetOnePending : Asset :=
  { Asset.init ("SPY" : String) with buffer := [sampleBar 1 0] }

/-- An asset with one admitted (pre-warm-up) row and an empty pending
buffer. -/
def assetEmptyBuf : Asset :=
  { symbol := ("SPY" : String), df := [{ bar := sampleBar 1 0, derived := [] }],
    buffer := [], _df_has_start_buffer_rows := false }

/-- A derived-column function that reads back the derived value already
stored on the dataframe's last row (legal: the functions receive the whole
current dataframe) — it returns that value plus one, or 100 if the cell is
still unassigned. -/
def selfRefFn : DerivedFn := fun _ df =>
  match df.getLast? with
  | some r =>
    match r.derived with
    | (_, some v) :: _ => v + 1
    | _ => 100
  | none => 0

/-- Settings whose single derived column is `selfRefFn` and whose warm-up
threshold is zero (warm from the first admission). -/
def msSelfRef : MachineSettings :=
  { start_date := 0, end_date := 0, time_frame_is_day := true,
    derived_columns := [(("d" : String), selfRefFn)],
    max_rows_in_df := 10, start_buffer_days := 0 }

/-- An asset with one admitted row and one further pending bar. -/
def assetOneRowOnePending : Asset :=
  { symbol := ("SPY" : String), df := [{ bar := sampleBar 1 0, derived := [] }],
    buffer := [sampleBar 2 0], _df_has_start_buffer_rows := false }

/-- The state `assetOneRowOnePending` reaches after one admission under
`msNoWarm`. -/
def assetTwoRows : Asset :=
  { symbol := ("SPY" : String),
    df := [{ bar := sampleBar 1 0, derived := [] }, { bar := sampleBar 2 0, derived := [] }],
    buffer := [], _df_has_start_buffer_rows := false }

/-- A bar whose vwap (7) differs from its close (5). -/
def barVwap : Bar :=
  { sampleBar 4 0 with vwap := 7, close := 5 }

/-- An asset whose one-row window ends in `barVwap`. -/
def assetPriced : Asset :=
  { symbol := ("SPY" : String), df := [{ bar := barVwap, derived := [] }],
    buffer := [], _df_has_start_buffer_rows := false }

/-- A single-symbol chunk for day 1. -/
def chunkSpyDay1 : List (String × List Bar) :=
  [(("SPY" : String), [sampleBar 1 0])]

/-- A fresh manager whose channel holds one `chunkSpyDay1` chunk. -/
def mgrOneChunk : AssetManager :=
  { AssetManager.init with queue := [.chunk chunkSpyDay1] }

/-- `mgrOneChunk`'s registry after the chunk has refilled it. -/
def assetsSpyRefilled : List (String × Asset) :=
  [(("SPY" : String), { Asset.init ("SPY" : String) with buffer := [sampleBar 1 0] })]

/-- A second tracked instrument `"X"` that still has a pending day-9 bar. -/
def assetXPending : Asset :=
  { symbol := ("X" : String), df := [], buffer := [sampleBar 9 0],
    _df_has_start_buffer_rows := false }

/-- A manager whose buffers are misaligned: `"SPY"` has an empty
PendingBuffer while `"X"` still holds a pending day-9 bar; the channel's
next chunk carries day-1 bars for both symbols. -/
def mgrMisaligned : AssetManager :=
  { AssetManager.init with
    watchedAssets := AssetManager.init.watchedAssets ++ [(("X" : String), assetXPending)],
    queue := [.chunk [(("SPY" : String), [sampleBar 1 0]), (("X" : String), [sampleBar 1 0])]] }

/-- `assetXPending` after one admission under `msNoWarm`. -/
def assetXAfter : Asset :=
  { symbol := ("X" : String), df := [{ bar := sampleBar 9 0, derived := [] }],
    buffer := [], _df_has_start_buffer_rows := false }

/-- A trading calendar in which every day numbered 0..99 is a trading day. -/
def calAllDays : List Nat := List.range 100

/-- Settings for a simulation over days 50..90 with a 5-day warm-up. -/
def msWarmupRange : MachineSettings :=
  { start_date := 50, end_date := 90, time_frame_is_day := true,
    derived_columns := [], max_rows_in_df := 10, start_buffer_days := 5 }

/-- Sub-daily-resolution settings. -/
def msMinute : MachineSettings :=
  { start_date := 0, end_date := 0, time_frame_is_day := false,
    derived_columns := [], max_rows_in_df := 10, start_buffer_days := 100 }

/-- One trading session on day 1, open at time 30, close at time 60. -/
def sessionDay1 : TradingDay :=
  { date := 1, open_time := ⟨1, 30⟩, close_time := ⟨1, 60⟩ }

/-- A raw row inside `sessionDay1`'s market hours. -/
def rawIn : RawRow :=
  { t := ⟨1, 40⟩, o := 1, h := 2, l := 3, c := 4, v := 5, n := 6, vw := 7 }

/-- A raw row on day 1 but after `sessionDay1`'s close. -/
def rawOut : RawRow :=
  { t := ⟨1, 70⟩, o := 1, h := 2, l := 3, c := 4, v := 5, n := 6, vw := 7 }

/-- A one-symbol raw fetch result holding `rawIn` and `rawOut`. -/
def rawDataDay1 : List (String × List RawRow) :=
  [(("SPY" : String), [rawIn, rawOut])]

/-! ## Helper lemmas about the derived-column assignment loop -/

theorem blankDerived_map_fst (specs : List (String × DerivedFn)) :
    (blankDerived specs).map Prod.fst = specs.map Prod.fst := by
  simp [blankDerived]

theorem updateDerived_map_fst (key : String) (v : Int) (d : List (String × Option Int)) :
    (updateDerived key v d).map Prod.fst = d.map Prod.fst := by
  induction d with
  | nil => rfl
  | cons p rest ih =>
    obtain ⟨k, w⟩ := p
    by_cases h : (k == key) = true
    · simp [updateDerived, h]
    · simp only [updateDerived, h, Bool.false_eq_true, if_false, List.map_cons]
      rw [ih]

theorem updateDerived_hit (key : String) (v : Int) (w : Option Int)
    (done tail : List (String × Option Int)) (hk : key ∉ done.map Prod.fst) :
    updateDerived key v (done ++ (key, w) :: tail) = done ++ (key, some v) :: tail := by
  induction done with
  | nil =>
    simp only [List.nil_append]
    show (if (key == key) = true then (key, some v) :: tail
          else (key, w) :: updateDerived key v tail) = (key, some v) :: tail
    rw [if_pos (beq_self_eq_true key)]
  | cons p rest ih =>
    obtain ⟨k, u⟩ := p
    have hne : ¬ ((k == key) = true) := by
      simp only [List.map_cons, List.mem_cons] at hk
      simp only [beq_iff_eq]
      intro hkk
      exact hk (Or.inl hkk.symm)
    have hrest : key ∉ rest.map Prod.fst := by
      simp only [List.map_cons, List.mem_cons] at hk
      intro hmem; exact hk (Or.inr hmem)
    show (if (k == key) = true then (k, some v) :: (rest ++ (key, w) :: tail)
          else (k, u) :: updateDerived key v (rest ++ (key, w) :: tail)) =
         (k, u) :: (rest ++ (key, some v) :: tail)
    rw [if_neg hne, ih hrest]

theorem setLastDerived_concat (key : String) (v : Int) (df : List Row) (last : Row) :
    setLastDerived key v (df ++ [last]) =
      df ++ [{ last with derived := updateDerived key v last.derived }] := by
  simp [setLastDerived, List.getLast?_concat, List.dropLast_concat]

/-- The derived-column loop, run on a dataframe whose last row's derived
cells split as `done` (already assigned) followed by the blank columns of
`specs`, assigns every remaining column: the resulting last row has all cells
assigned, and neither the earlier rows, nor the base columns or the column
names of the last row, change. -/
theorem compute_derived_aux
    (specs : List (String × DerivedFn)) (ident : DFIdentifier) :
    ∀ (front : List Row) (last : Row) (done : List (String × Option Int)),
    last.derived = done ++ blankDerived specs →
    (last.derived.map Prod.fst).Nodup →
    (∀ p ∈ done, p.2.isSome = true) →
    ∃ last1,
      specs.foldl (fun acc p => setLastDerived p.1 (p.2 ident acc) acc) (front ++ [last]) =
        front ++ [last1] ∧
      last1.bar = last.bar ∧
      last1.derived.map Prod.fst = last.derived.map Prod.fst ∧
      (∀ p ∈ last1.derived, p.2.isSome = true) := by
  induction specs with
  | nil =>
    intro front last done hsplit hnodup hdone
    refine ⟨last, rfl, rfl, rfl, ?_⟩
    intro p hp
    rw [hsplit] at hp
    simp only [blankDerived, List.map_nil, List.append_nil] at hp
    exact hdone p hp
  | cons s rest ih =>
    intro front last done hsplit hnodup hdone
    obtain ⟨k, fn⟩ := s
    have hsplit2 : last.derived = done ++ (k, (none : Option Int)) :: blankDerived rest := by
      rw [hsplit]; simp [blankDerived]
    have hkeys : last.derived.map Prod.fst =
        done.map Prod.fst ++ k :: (blankDerived rest).map Prod.fst := by
      rw [hsplit2]; simp
    have hnodup2 := hnodup
    rw [hkeys] at hnodup2
    rcases List.nodup_append.mp hnodup2 with ⟨_, _, hdisj⟩
    have hknotdone : k ∉ done.map Prod.fst := fun hmem =>
      hdisj hmem (List.mem_cons_self _ _)
    have hstep : setLastDerived k (fn ident (front ++ [last])) (front ++ [last]) =
        front ++ [{ last with
          derived := done ++ (k, some (fn ident (front ++ [last]))) :: blankDerived rest }] := by
      rw [setLastDerived_concat, hsplit2,
        updateDerived_hit k (fn ident (front ++ [last])) none done _ hknotdone]
    have hnodup1 : (({ last with
        derived := done ++ (k, some (fn ident (front ++ [last]))) :: blankDerived rest
        } : Row).derived.map Prod.fst).Nodup := by
      have heq : ({ last with
          derived := done ++ (k, some (fn ident (front ++ [last]))) :: blankDerived rest
          } : Row).derived.map Prod.fst = last.derived.map Prod.fst := by
        rw [hsplit2]; simp
      rw [heq]
      exact hnodup
    have hdone1 : ∀ p ∈ done ++ [(k, some (fn ident (front ++ [last])))], p.2.isSome = true := by
      intro p hp
      rcases List.mem_append.mp hp with h | h
      · exact hdone p h
      · simp only [List.mem_singleton] at h
        rw [h]
        rfl
    obtain ⟨last2, hfold, hbar, hkeys2, hsome2⟩ := ih front
      { last with
        derived := done ++ (k, some (fn ident (front ++ [last]))) :: blankDerived rest }
      (done ++ [(k, some (fn ident (front ++ [last])))])
      (by simp) hnodup1 hdone1
    refine ⟨last2, ?_, ?_, ?_, hsome2⟩
    · rw [List.foldl_cons, hstep]
      exact hfold
    · rw [hbar]
    · rw [hkeys2]
      rw [hsplit2]
      simp

theorem eq_dropLast_concat_of_getLastEq {α : Type _} {l : List α} {a : α}
    (h : l.getLast? = some a) : l = l.dropLast ++ [a] := by
  cases l using List.reverseRecOn with
  | nil => simp at h
  | append_singleton l x =>
    rw [List.getLast?_concat] at h
    rw [List.dropLast_concat]
    injection h with h
    rw [h]

theorem setLastDerived_map_bar (key : String) (v : Int) (df : List Row) :
    (setLastDerived key v df).map Row.bar = df.map Row.bar := by
  cases hdf : df.getLast? with
  | none => simp [setLastDerived, hdf]
  | some last =>
    have hsplit := eq_dropLast_concat_of_getLastEq hdf
    rw [setLastDerived, hdf]
    conv_rhs => rw [hsplit]
    simp

theorem setLastDerived_dropLast (key : String) (v : Int) (df : List Row) :
    (setLastDerived key v df).dropLast = df.dropLast := by
  cases hdf : df.getLast? with
  | none => simp [setLastDerived, hdf]
  | some last =>
    rw [setLastDerived, hdf]
    simp

theorem compute_derived_columns_map_bar (ms : MachineSettings) (ident : DFIdentifier)
    (df : List Row) :
    (compute_derived_columns ms ident df).map Row.bar = df.map Row.bar := by
  show ((ms.derived_columns.foldl (fun acc p => setLastDerived p.1 (p.2 ident acc) acc) df).map
    Row.bar) = df.map Row.bar
  induction ms.derived_columns generalizing df with
  | nil => rfl
  | cons s rest ih =>
    rw [List.foldl_cons]
    rw [ih]
    exact setLastDerived_map_bar _ _ _

theorem compute_derived_columns_dropLast (ms : MachineSettings) (ident : DFIdentifier)
    (df : List Row) :
    (compute_derived_columns ms ident df).dropLast = df.dropLast := by
  show ((ms.derived_columns.foldl (fun acc p => setLastDerived p.1 (p.2 ident acc) acc) df).dropLast)
    = df.dropLast
  induction ms.derived_columns generalizing df with
  | nil => rfl
  | cons s rest ih =>
    rw [List.foldl_cons]
    rw [ih]
    exact setLastDerived_dropLast _ _ _

theorem _count_unique_days_congr {df df' : List Row}
    (h : df.map Row.bar = df'.map Row.bar) :
    _count_unique_days_in_dataframe df = _count_unique_days_in_dataframe df' := by
  unfold _count_unique_days_in_dataframe
  have : df.map (fun r => r.bar.datetime.date) = df'.map (fun r => r.bar.datetime.date) := by
    have h1 : df.map (fun r => r.bar.datetime.date) =
        (df.map Row.bar).map (fun b => b.datetime.date) := by
      rw [List.map_map]; rfl
    have h2 : df'.map (fun r => r.bar.datetime.date) =
        (df'.map Row.bar).map (fun b => b.datetime.date) := by
      rw [List.map_map]; rfl
    rw [h1, h2, h]
  rw [this]

theorem df_ts_eq_of_map_bar {df df' : List Row}
    (h : df.map Row.bar = df'.map Row.bar) : df_ts df = df_ts df' := by
  unfold df_ts
  have h1 : df.map (fun r => r.bar.timestamp) =
      (df.map Row.bar).map (fun b => b.timestamp) := by
    rw [List.map_map]; rfl
  have h2 : df'.map (fun r => r.bar.timestamp) =
      (df'.map Row.bar).map (fun b => b.timestamp) := by
    rw [List.map_map]; rfl
  rw [h1, h2, h]

/-! ## Characterization of `Asset.increment_dataframe` -/

/-- The not-yet-warm branch: warm-up flag clear and distinct-day threshold
not reached — no derived column is touched. -/
theorem increment_dataframe_not_warm (ms : MachineSettings) (a : Asset)
    (h : (a._df_has_start_buffer_rows ||
      decide (_count_unique_days_in_dataframe (evict ms (appended_df ms a)) ≥ ms.start_buffer_days)) = false) :
    a.increment_dataframe ms =
      some { a with df := evict ms (appended_df ms a), buffer := a.buffer.tail } := by
  unfold Asset.increment_dataframe
  simp only [h]
  rfl

/-- The warm branch with a non-empty dataframe: the flag is set and every
derived column of the last row is computed. -/
theorem increment_dataframe_warm (ms : MachineSettings) (a : Asset) (lastRow : Row)
    (h : (a._df_has_start_buffer_rows ||
      decide (_count_unique_days_in_dataframe (evict ms (appended_df ms a)) ≥ ms.start_buffer_days)) = true)
    (hlast : (evict ms (appended_df ms a)).getLast? = some lastRow) :
    a.increment_dataframe ms =
      some { a with
        df := compute_derived_columns ms ⟨a.symbol, lastRow.bar.timestamp⟩
          (evict ms (appended_df ms a)),
        buffer := a.buffer.tail,
        _df_has_start_buffer_rows := true } := by
  unfold Asset.increment_dataframe
  simp only [h, hlast, if_true]

/-- The warm branch on an empty dataframe: `self.df.iloc[-1]` raises
`IndexError`. -/
theorem increment_dataframe_warm_crash (ms : MachineSettings) (a : Asset)
    (h : (a._df_has_start_buffer_rows ||
      decide (_count_unique_days_in_dataframe (evict ms (appended_df ms a)) ≥ ms.start_buffer_days)) = true)
    (hlast : (evict ms (appended_df ms a)).getLast? = none) :
    a.increment_dataframe ms = none := by
  unfold Asset.increment_dataframe
  simp only [h, hlast, if_true]

theorem evict_concat (ms : MachineSettings) (df : List Row) (r : Row)
    (hmax : 1 ≤ ms.max_rows_in_df) :
    evict ms (df ++ [r]) =
      (if df.length + 1 > ms.max_rows_in_df then df.tail else df) ++ [r] := by
  unfold evict
  by_cases hc : df.length + 1 > ms.max_rows_in_df
  · have hlen : (df ++ [r]).length > ms.max_rows_in_df := by
      simp only [List.length_append, List.length_singleton]
      omega
    rw [if_pos hlen, if_pos hc]
    cases df with
    | nil =>
      exfalso
      simp only [List.length_nil] at hc
      omega
    | cons x xs => rfl
  · have hlen : ¬ ((df ++ [r]).length > ms.max_rows_in_df) := by
      simp only [List.length_append, List.length_singleton]
      omega
    rw [if_neg hlen, if_neg hc]

/-- What one successful admission does to an Asset's state and to the
just-admitted row: the buffer head becomes the new last window row (evicting
the oldest window row when over capacity), all earlier surviving rows are
unchanged, the warm-up flag becomes `flag OR day-count reached`, and the new
row's derived cells are all assigned when that condition holds and all still
blank when it does not. -/
theorem increment_spec_cons (ms : MachineSettings) (a : Asset) (b : Bar) (bs : List Bar)
    (hbuf : a.buffer = b :: bs) (hmax : 1 ≤ ms.max_rows_in_df)
    (hnodup : (ms.derived_columns.map Prod.fst).Nodup) :
    ∃ a' last,
      a.increment_dataframe ms = some a' ∧
      a'.symbol = a.symbol ∧
      a'.buffer = bs ∧
      a'.df.getLast? = some last ∧
      last.bar = b ∧
      a'.df.dropLast = (if a.df.length + 1 > ms.max_rows_in_df then a.df.tail else a.df) ∧
      a'._df_has_start_buffer_rows = (a._df_has_start_buffer_rows ||
        decide (_count_unique_days_in_dataframe a'.df ≥ ms.start_buffer_days)) ∧
      (a'._df_has_start_buffer_rows = true →
        last.derived.map Prod.fst = ms.derived_columns.map Prod.fst ∧
        ∀ p ∈ last.derived, p.2.isSome = true) ∧
      (a'._df_has_start_buffer_rows = false → last.derived = blankDerived ms.derived_columns) := by
  have happ : appended_df ms a = a.df ++ [⟨b, blankDerived ms.derived_columns⟩] := by
    unfold appended_df
    rw [hbuf]
    rfl
  have hdf2 : evict ms (appended_df ms a) =
      (if a.df.length + 1 > ms.max_rows_in_df then a.df.tail else a.df) ++
        [⟨b, blankDerived ms.derived_columns⟩] := by
    rw [happ]
    exact evict_concat ms a.df _ hmax
  have hlastdf2 : (evict ms (appended_df ms a)).getLast? =
      some ⟨b, blankDerived ms.derived_columns⟩ := by
    rw [hdf2, List.getLast?_concat]
  cases hcond : (a._df_has_start_buffer_rows ||
      decide (_count_unique_days_in_dataframe (evict ms (appended_df ms a)) ≥ ms.start_buffer_days)) with
  | false =>
    have hinc := increment_dataframe_not_warm ms a hcond
    rcases Bool.or_eq_false_iff.mp hcond with ⟨hflag, hcount⟩
    refine ⟨_, ⟨b, blankDerived ms.derived_columns⟩, hinc, rfl, ?_, ?_, rfl, ?_, ?_, ?_, ?_⟩
    · rw [hbuf]; rfl
    · show (evict ms (appended_df ms a)).getLast? = _
      exact hlastdf2
    · show (evict ms (appended_df ms a)).dropLast = _
      rw [hdf2, List.dropLast_concat]
    · show a._df_has_start_buffer_rows = (a._df_has_start_buffer_rows || _)
      rw [hflag]
      show false = (false || _)
      rw [Bool.false_or]
      exact hcount.symm
    · intro hfl
      rw [hfl] at hflag
      exact absurd hflag (by simp)
    · intro _
      rfl
  | true =>
    have hinc := increment_dataframe_warm ms a ⟨b, blankDerived ms.derived_columns⟩ hcond hlastdf2
    obtain ⟨last1, hfold, hbar, hkeys, hsome⟩ :=
      compute_derived_aux ms.derived_columns
        ⟨a.symbol, (⟨b, blankDerived ms.derived_columns⟩ : Row).bar.timestamp⟩
        (if a.df.length + 1 > ms.max_rows_in_df then a.df.tail else a.df)
        ⟨b, blankDerived ms.derived_columns⟩ []
        (by simp)
        (by show ((blankDerived ms.derived_columns).map Prod.fst).Nodup
            rw [blankDerived_map_fst]
            exact hnodup)
        (by intro p hp; exact absurd hp (List.not_mem_nil p))
    have hcompute : compute_derived_columns ms
        ⟨a.symbol, (⟨b, blankDerived ms.derived_columns⟩ : Row).bar.timestamp⟩
        (evict ms (appended_df ms a)) =
        (if a.df.length + 1 > ms.max_rows_in_df then a.df.tail else a.df) ++ [last1] := by
      rw [hdf2]
      exact hfold
    rw [hcompute] at hinc
    refine ⟨_, last1, hinc, rfl, ?_, ?_, ?_, ?_, ?_, ?_, ?_⟩
    · rw [hbuf]; rfl
    · show (_ ++ [last1]).getLast? = some last1
      exact List.getLast?_concat _
    · exact hbar
    · show (_ ++ [last1]).dropLast = _
      rw [List.dropLast_concat]
    · show true = (a._df_has_start_buffer_rows || _)
      have hmb : ((if a.df.length + 1 > ms.max_rows_in_df then a.df.tail else a.df)
          ++ [last1]).map Row.bar = (evict ms (appended_df ms a)).map Row.bar := by
        rw [hdf2]
        simp only [List.map_append, List.map_cons, List.map_nil]
        rw [hbar]
      rw [_count_unique_days_congr hmb]
      exact hcond.symm
    · intro _
      constructor
      · rw [hkeys]
        show (blankDerived ms.derived_columns).map Prod.fst = _
        exact blankDerived_map_fst _
      · exact hsome
    · intro hfl
      exact absurd hfl (by simp)

/-- Any successful `increment_dataframe` call: the window's bars become the
appended-then-evicted bars, the buffer loses its head, and the symbol is
unchanged. -/
theorem increment_map_bar (ms : MachineSettings) (a a' : Asset)
    (h : a.increment_dataframe ms = some a') :
    a'.df.map Row.bar = (evict ms (appended_df ms a)).map Row.bar ∧
    a'.buffer = a.buffer.tail ∧ a'.symbol = a.symbol := by
  cases hcond : (a._df_has_start_buffer_rows ||
      decide (_count_unique_days_in_dataframe (evict ms (appended_df ms a)) ≥ ms.start_buffer_days)) with
  | false =>
    rw [increment_dataframe_not_warm ms a hcond] at h
    obtain rfl := (Option.some.inj h)
    exact ⟨rfl, rfl, rfl⟩
  | true =>
    cases hget : (evict ms (appended_df ms a)).getLast? with
    | none =>
      rw [increment_dataframe_warm_crash ms a hcond hget] at h
      exact absurd h (by simp)
    | some lastRow =>
      rw [increment_dataframe_warm ms a lastRow hcond hget] at h
      obtain rfl := (Option.some.inj h)
      exact ⟨compute_derived_columns_map_bar _ _ _, rfl, rfl⟩


theorem df_ts_append (l l' : List Row) : df_ts (l ++ l') = df_ts l ++ df_ts l' := by
  unfold df_ts
  exact List.map_append _ _ _

theorem df_ts_tail (l : List Row) : df_ts l.tail = (df_ts l).tail := by
  unfold df_ts
  cases l with
  | nil => rfl
  | cons x xs => rfl

theorem df_ts_evict (ms : MachineSettings) (df : List Row) :
    df_ts (evict ms df) =
      if df.length > ms.max_rows_in_df then (df_ts df).tail else df_ts df := by
  unfold evict
  by_cases hc : df.length > ms.max_rows_in_df
  · rw [if_pos hc, if_pos hc, df_ts_tail]
  · rw [if_neg hc, if_neg hc]

theorem df_ts_length (df : List Row) : (df_ts df).length = df.length := by
  unfold df_ts
  exact List.length_map _ _

/-- One successful admission never grows the window beyond `max_rows_in_df`. -/
theorem increment_length (ms : MachineSettings) (a a' : Asset)
    (h : a.increment_dataframe ms = some a') (hlen : a.df.length ≤ ms.max_rows_in_df) :
    a'.df.length ≤ ms.max_rows_in_df := by
  obtain ⟨hmb, -, -⟩ := increment_map_bar ms a a' h
  have hlen1 : a'.df.length = (evict ms (appended_df ms a)).length := by
    have := congrArg List.length hmb
    simpa using this
  have happlen : (appended_df ms a).length ≤ a.df.length + 1 := by
    unfold appended_df
    cases a.buffer.head? with
    | none => simp
    | some b => simp
  rw [hlen1]
  unfold evict
  by_cases hc : (appended_df ms a).length > ms.max_rows_in_df
  · rw [if_pos hc]
    rw [List.length_tail]
    omega
  · rw [if_neg hc]
    omega

/-- One successful admission only ever rearranges (a sub-sequence of) the
timestamps already present in the window and the pending buffer: the window
and buffer timestamps afterwards are a sub-list, in order, of those before. -/
theorem increment_ts_sublist (ms : MachineSettings) (a a' : Asset)
    (h : a.increment_dataframe ms = some a') :
    List.Sublist (df_ts a'.df ++ buf_ts a'.buffer) (df_ts a.df ++ buf_ts a.buffer) := by
  obtain ⟨hmb, hbuf, -⟩ := increment_map_bar ms a a' h
  have hts : df_ts a'.df = df_ts (evict ms (appended_df ms a)) := df_ts_eq_of_map_bar hmb
  rw [hts, hbuf, df_ts_evict]
  cases hb : a.buffer with
  | nil =>
    have happ : appended_df ms a = a.df := by
      unfold appended_df
      rw [hb]
      rfl
    rw [happ]
    simp only [List.tail_nil, buf_ts, List.map_nil, List.append_nil]
    by_cases hc : a.df.length > ms.max_rows_in_df
    · rw [if_pos hc]
      exact List.tail_sublist _
    · rw [if_neg hc]
  | cons x xs =>
    have happ : appended_df ms a = a.df ++ [⟨x, blankDerived ms.derived_columns⟩] := by
      unfold appended_df
      rw [hb]
      rfl
    rw [happ, df_ts_append]
    have hbts : buf_ts (x :: xs) = x.timestamp :: buf_ts xs := rfl
    have hone : df_ts [(⟨x, blankDerived ms.derived_columns⟩ : Row)] = [x.timestamp] := rfl
    rw [hone, hbts]
    have hassoc : df_ts a.df ++ x.timestamp :: buf_ts xs =
        (df_ts a.df ++ [x.timestamp]) ++ buf_ts xs := by
      simp
    rw [hassoc]
    by_cases hc : (a.df ++ [(⟨x, blankDerived ms.derived_columns⟩ : Row)]).length > ms.max_rows_in_df
    · rw [if_pos hc]
      exact List.Sublist.append (List.tail_sublist _) (List.Sublist.refl _)
    · rw [if_neg hc]
      exact List.Sublist.append (List.Sublist.refl _) (List.Sublist.refl _)

/-- The window-capacity invariant is preserved by any sequence of buffer
refills and admissions. -/
theorem run_ops_length (ms : MachineSettings) :
    ∀ (ops : List AssetOp) (a a' : Asset),
    run_ops ms a ops = some a' → a.df.length ≤ ms.max_rows_in_df →
    a'.df.length ≤ ms.max_rows_in_df := by
  intro ops
  induction ops with
  | nil =>
    intro a a' h hlen
    obtain rfl := Option.some.inj h
    exact hlen
  | cons op rest ih =>
    intro a a' h hlen
    unfold run_ops at h
    cases hap : apply_op ms a op with
    | none =>
      rw [hap] at h
      exact absurd h (by simp)
    | some a1 =>
      rw [hap] at h
      refine ih a1 a' h ?_
      cases op with
      | refill b =>
        obtain rfl := Option.some.inj hap
        exact hlen
      | admit_next =>
        exact increment_length ms a a1 hap hlen

/-- If the window, buffer and all future refill payloads together form a
strictly increasing timestamp chain, they still do after any run. -/
theorem run_ops_chain (ms : MachineSettings) :
    ∀ (ops : List AssetOp) (a a' : Asset),
    run_ops ms a ops = some a' →
    List.Pairwise dtltP (df_ts a.df ++ buf_ts a.buffer ++ ops_ts ops) →
    List.Pairwise dtltP (df_ts a'.df ++ buf_ts a'.buffer) := by
  intro ops
  induction ops with
  | nil =>
    intro a a' h hp
    obtain rfl := Option.some.inj h
    simpa [ops_ts] using hp
  | cons op rest ih =>
    intro a a' h hp
    unfold run_ops at h
    cases hap : apply_op ms a op with
    | none =>
      rw [hap] at h
      exact absurd h (by simp)
    | some a1 =>
      rw [hap] at h
      refine ih a1 a' h ?_
      cases op with
      | refill b =>
        obtain rfl := Option.some.inj hap
        show List.Pairwise dtltP (df_ts a.df ++ buf_ts b ++ ops_ts rest)
        have hops : ops_ts (AssetOp.refill b :: rest) = buf_ts b ++ ops_ts rest := rfl
        rw [hops] at hp
        rw [List.append_assoc] at hp
        rw [List.append_assoc]
        refine hp.sublist ?_
        exact List.Sublist.append_left (List.sublist_append_right _ _) _
      | admit_next =>
        have hsub := increment_ts_sublist ms a a1 hap
        have hops : ops_ts (AssetOp.admit_next :: rest) = ops_ts rest := rfl
        rw [hops] at hp
        refine hp.sublist ?_
        exact List.Sublist.append hsub (List.Sublist.refl _)

/-- Claim C2, as frozen, is FALSE on the code: nothing in
`Asset.increment_dataframe` or `AssetManager.increment_dataframes` checks
that incoming chunk timestamps extend the window chronologically. Two
`advance()` calls on a fresh manager whose channel holds a day-5 chunk and
then a day-3 chunk (as produced when fetch ranges overlap) leave the
reference instrument's Window with timestamps `[day 5, day 3]` — not
strictly increasing. -/
theorem C2_counterexample :
    ∃ m1 m2 : AssetManager,
      AssetManager.increment_dataframes msNoWarm mgrOutOfOrder = .ok m1 ∧
      AssetManager.increment_dataframes msNoWarm m1 = .ok m2 ∧
      ∃ a : Asset, m2.watchedAssets = [(("SPY" : String), a)] ∧
        ¬ List.Pairwise dtltP (df_ts a.df) := by
  refine ⟨_, _, rfl, rfl, _, rfl, ?_⟩
  decide

/-- Claim C2 (amended): for every instrument and any sequence of consumer
operations (buffer refills and admissions) starting from a fresh Asset, the
Window length never exceeds `max_rows_in_df` (when an append exceeds
capacity the oldest head row is dropped) — unconditionally; and the Window
timestamps are strictly increasing PROVIDED the refill payloads form one
globally strictly increasing timestamp stream (the code performs no ordering
check of its own, so this side condition on the fetched data is necessary —
see `C2_counterexample`). -/
theorem C2_window_invariants (ms : MachineSettings) (s : String)
    (ops : List AssetOp) (a' : Asset)
    (h : run_ops ms (Asset.init s) ops = some a') :
    a'.df.length ≤ ms.max_rows_in_df ∧
    (List.Pairwise dtltP (ops_ts ops) → List.Pairwise dtltP (df_ts a'.df)) := by
  constructor
  · exact run_ops_length ms ops _ a' h (by simp [Asset.init])
  · intro hch
    have hrun := run_ops_chain ms ops _ a' h
      (by simpa [Asset.init, df_ts, buf_ts] using hch)
    exact hrun.sublist (List.sublist_append_left _ _)

/-- Witness for `C2_window_invariants` at a concrete run: refill with days
1 and 2, admit twice, under capacity 3. -/
theorem C2_window_invariants_witness :
    run_ops msCap3 (Asset.init ("SPY" : String)) opsOrdered = some assetOrdered ∧
    assetOrdered.df.length ≤ msCap3.max_rows_in_df ∧
    List.Pairwise dtltP (df_ts assetOrdered.df) := by
  have h : run_ops msCap3 (Asset.init ("SPY" : String)) opsOrdered = some assetOrdered := by
    decide
  refine ⟨h, (C2_window_invariants msCap3 ("SPY" : String) opsOrdered assetOrdered h).1,
    (C2_window_invariants msCap3 ("SPY" : String) opsOrdered assetOrdered h).2 (by decide)⟩

/-- Any successful admission leaves all rows but the last — derived cells
included — exactly as the append/evict step produced them: derived columns
are only ever written on the dataframe's last row. -/
theorem increment_dropLast (ms : MachineSettings) (a a' : Asset)
    (h : a.increment_dataframe ms = some a') :
    a'.df.dropLast = (evict ms (appended_df ms a)).dropLast := by
  cases hcond : (a._df_has_start_buffer_rows ||
      decide (_count_unique_days_in_dataframe (evict ms (appended_df ms a)) ≥ ms.start_buffer_days)) with
  | false =>
    rw [increment_dataframe_not_warm ms a hcond] at h
    obtain rfl := Option.some.inj h
    rfl
  | true =>
    cases hget : (evict ms (appended_df ms a)).getLast? with
    | none =>
      rw [increment_dataframe_warm_crash ms a hcond hget] at h
      exact absurd h (by simp)
    | some lastRow =>
      rw [increment_dataframe_warm ms a lastRow hcond hget] at h
      obtain rfl := (Option.some.inj h)
      exact compute_derived_columns_dropLast _ _ _

/-- Claim C1 (confirmed): a bar admitted by `increment_dataframe` has every
derived column computed and stored on it if and only if, at the moment of
admission, the warm-up flag was already set or the number of distinct
calendar dates in the Window reaches `start_buffer_days`; otherwise every
derived cell of the admitted bar is unset; the flag afterwards is exactly
`flag OR threshold-reached` (so once set it never clears); and all earlier
surviving rows are carried over unchanged. Hypotheses: the buffer is
non-empty (an admission happens), capacity is at least one row (so the
admitted bar is not itself instantly evicted), the derived-column names are
distinct (they are keys of a Python `dict`) and at least one derived column
is configured (otherwise "present" and "absent" are both vacuous). -/
theorem C1_derived_columns_warmup (ms : MachineSettings) (a : Asset) (b : Bar) (bs : List Bar)
    (hbuf : a.buffer = b :: bs) (hmax : 1 ≤ ms.max_rows_in_df)
    (hnodup : (ms.derived_columns.map Prod.fst).Nodup)
    (hne : ms.derived_columns ≠ []) :
    ∃ a' last,
      a.increment_dataframe ms = some a' ∧
      a'.df.getLast? = some last ∧
      last.bar = b ∧
      (last.allSet = true ↔
        (a._df_has_start_buffer_rows = true ∨
         _count_unique_days_in_dataframe a'.df ≥ ms.start_buffer_days)) ∧
      (last.allUnset = true ↔
        ¬ (a._df_has_start_buffer_rows = true ∨
           _count_unique_days_in_dataframe a'.df ≥ ms.start_buffer_days)) ∧
      a'._df_has_start_buffer_rows = (a._df_has_start_buffer_rows ||
        decide (_count_unique_days_in_dataframe a'.df ≥ ms.start_buffer_days)) ∧
      (a._df_has_start_buffer_rows = true → a'._df_has_start_buffer_rows = true) ∧
      a'.df.dropLast = (if a.df.length + 1 > ms.max_rows_in_df then a.df.tail else a.df) := by
  obtain ⟨a', last, hinc, hsym, hbuf', hlast, hbar, hdrop, hflag, hwarm, hnotwarm⟩ :=
    increment_spec_cons ms a b bs hbuf hmax hnodup
  have hcondiff : a'._df_has_start_buffer_rows = true ↔
      (a._df_has_start_buffer_rows = true ∨
       _count_unique_days_in_dataframe a'.df ≥ ms.start_buffer_days) := by
    rw [hflag]
    simp only [Bool.or_eq_true, decide_eq_true_iff]
  refine ⟨a', last, hinc, hlast, hbar, ?_, ?_, hflag, ?_, hdrop⟩
  · constructor
    · intro hset
      by_contra hnc
      have hf : a'._df_has_start_buffer_rows = false := by
        cases hfv : a'._df_has_start_buffer_rows
        · rfl
        · exact absurd (hcondiff.mp hfv) hnc
      have hblank := hnotwarm hf
      unfold Row.allSet at hset
      rw [hblank] at hset
      cases hsp : ms.derived_columns with
      | nil => exact hne hsp
      | cons p ps =>
        rw [hsp] at hset
        simp [blankDerived] at hset
    · intro hc
      obtain ⟨-, hsome⟩ := hwarm (hcondiff.mpr hc)
      unfold Row.allSet
      rw [List.all_eq_true]
      intro p hp
      exact hsome p hp
  · constructor
    · intro hunset hc
      obtain ⟨hkeys, hsome⟩ := hwarm (hcondiff.mpr hc)
      cases hd : last.derived with
      | nil =>
        rw [hd] at hkeys
        cases hsp : ms.derived_columns with
        | nil => exact hne hsp
        | cons p ps =>
          rw [hsp] at hkeys
          simp at hkeys
      | cons q qs =>
        have hq := hsome q (by rw [hd]; exact List.mem_cons_self _ _)
        unfold Row.allUnset at hunset
        rw [hd, List.all_eq_true] at hunset
        have hqn := hunset q (List.mem_cons_self _ _)
        cases q2 : q.2 with
        | none =>
          rw [q2] at hq
          exact absurd hq (by simp)
        | some v =>
          rw [q2] at hqn
          exact absurd hqn (by simp)
    · intro hnc
      have hf : a'._df_has_start_buffer_rows = false := by
        cases hfv : a'._df_has_start_buffer_rows
        · rfl
        · exact absurd (hcondiff.mp hfv) hnc
      have hblank := hnotwarm hf
      unfold Row.allUnset
      rw [hblank, List.all_eq_true]
      intro p hp
      simp only [blankDerived, List.mem_map] at hp
      obtain ⟨q, hq, rfl⟩ := hp
      rfl
  · intro hfl
    rw [hflag, hfl]
    rfl

/-- Witness for `C1_derived_columns_warmup`: a fresh asset admits its first
bar under a one-column configuration with `start_buffer_days = 1`. -/
theorem C1_derived_columns_warmup_witness :
    ∃ a' last,
      Asset.increment_dataframe msOneCol assetOnePending = some a' ∧
      a'.df.getLast? = some last ∧
      last.bar = sampleBar 1 0 ∧
      (last.allSet = true ↔
        (assetOnePending._df_has_start_buffer_rows = true ∨
         _count_unique_days_in_dataframe a'.df ≥ msOneCol.start_buffer_days)) ∧
      (last.allUnset = true ↔
        ¬ (assetOnePending._df_has_start_buffer_rows = true ∨
           _count_unique_days_in_dataframe a'.df ≥ msOneCol.start_buffer_days)) ∧
      a'._df_has_start_buffer_rows = (assetOnePending._df_has_start_buffer_rows ||
        decide (_count_unique_days_in_dataframe a'.df ≥ msOneCol.start_buffer_days)) ∧
      (assetOnePending._df_has_start_buffer_rows = true →
        a'._df_has_start_buffer_rows = true) ∧
      a'.df.dropLast =
        (if assetOnePending.df.length + 1 > msOneCol.max_rows_in_df
         then assetOnePending.df.tail else assetOnePending.df) :=
  C1_derived_columns_warmup msOneCol assetOnePending (sampleBar 1 0) [] rfl
    (by decide) (by decide) (List.cons_ne_nil _ _)

/-- Claim C7 is FALSE on the code: `increment_dataframe` with an empty
PendingBuffer neither checks a precondition nor reports any failure — here a
concrete pre-warm-up asset with an empty buffer: the call returns normally
(Python returns `None` exactly as on success) with the state unchanged,
where the claim demands a reported failure. -/
theorem C7_counterexample :
    Asset.increment_dataframe msNoWarm assetEmptyBuf = some assetEmptyBuf := by
  decide

/-- Claim C7 (amended): calling `admit_next()` with an empty PendingBuffer is
a SILENT no-op on the window's rows, not a reported failure: no bar is
admitted, the buffer stays empty, and the call returns exactly as on success.
If warm-up is not yet satisfied the state is completely unchanged (up to the
capacity check); if warm-up is satisfied the derived columns of the current
tail row are re-evaluated in place (see `C8_counterexample`) — and on an
empty window such a call even crashes with an `IndexError` instead of a
clean error. -/
theorem C7_empty_buffer_silent (ms : MachineSettings) (a : Asset) (hbuf : a.buffer = []) :
    ((a._df_has_start_buffer_rows ||
        decide (_count_unique_days_in_dataframe (evict ms a.df) ≥ ms.start_buffer_days)) = false →
      a.increment_dataframe ms = some { a with df := evict ms a.df, buffer := [] }) ∧
    (∀ lastRow, (a._df_has_start_buffer_rows ||
        decide (_count_unique_days_in_dataframe (evict ms a.df) ≥ ms.start_buffer_days)) = true →
      (evict ms a.df).getLast? = some lastRow →
      a.increment_dataframe ms = some { a with
        df := compute_derived_columns ms ⟨a.symbol, lastRow.bar.timestamp⟩ (evict ms a.df),
        buffer := [], _df_has_start_buffer_rows := true }) ∧
    ((a._df_has_start_buffer_rows ||
        decide (_count_unique_days_in_dataframe (evict ms a.df) ≥ ms.start_buffer_days)) = true →
      (evict ms a.df).getLast? = none →
      a.increment_dataframe ms = none) := by
  have happ : appended_df ms a = a.df := by
    unfold appended_df
    rw [hbuf]
    rfl
  have htail : a.buffer.tail = [] := by
    rw [hbuf]
    rfl
  refine ⟨?_, ?_, ?_⟩
  · intro hc
    have h := increment_dataframe_not_warm ms a (by rw [happ]; exact hc)
    rw [happ, htail] at h
    exact h
  · intro lastRow hc hget
    have h := increment_dataframe_warm ms a lastRow (by rw [happ]; exact hc)
      (by rw [happ]; exact hget)
    rw [happ, htail] at h
    exact h
  · intro hc hget
    exact increment_dataframe_warm_crash ms a (by rw [happ]; exact hc)
      (by rw [happ]; exact hget)

/-- Witness for `C7_empty_buffer_silent`: the silent-success branch on a
concrete pre-warm-up asset. -/
theorem C7_empty_buffer_silent_witness :
    Asset.increment_dataframe msNoWarm assetEmptyBuf =
      some { assetEmptyBuf with df := evict msNoWarm assetEmptyBuf.df, buffer := [] } :=
  (C7_empty_buffer_silent msNoWarm assetEmptyBuf rfl).1 (by decide)

/-- Claim C8 is FALSE on the code: an admitted bar is NOT immutable and a
derived column is NOT evaluated at most once per bar. Concretely: admit one
bar (its derived column `d` is computed once, value 100); then call
`increment_dataframe` again with the buffer empty — the warm branch runs
again on the same tail row and re-evaluates `d` on the already-admitted bar,
overwriting 100 with 101. -/
theorem C8_counterexample :
    ∃ a1 a2 : Asset,
      Asset.increment_dataframe msSelfRef assetOnePending = some a1 ∧
      Asset.increment_dataframe msSelfRef a1 = some a2 ∧
      a1.df = [{ bar := sampleBar 1 0, derived := [(("d" : String), some (100 : Int))] }] ∧
      a2.df = [{ bar := sampleBar 1 0, derived := [(("d" : String), some (101 : Int))] }] := by
  exact ⟨_, _, rfl, rfl, by decide, by decide⟩

/-- Claim C8 (amended): during a genuine admission (non-empty PendingBuffer)
every row other than the just-admitted tail — derived cells included — is
carried over exactly unchanged, so each derived column is evaluated only for
the newly admitted bar at its admission; and a call with an empty
PendingBuffer never changes any bar's base fields. The exception forced by
`C8_counterexample`: an empty-buffer call with warm-up satisfied re-evaluates
the derived columns of the current tail row in place, mutating a previously
admitted bar. -/
theorem C8_bar_immutability (ms : MachineSettings) (a : Asset) :
    (∀ b bs a', a.buffer = b :: bs → 1 ≤ ms.max_rows_in_df →
      a.increment_dataframe ms = some a' →
      a'.df.dropLast = (if a.df.length + 1 > ms.max_rows_in_df then a.df.tail else a.df)) ∧
    (∀ a', a.buffer = [] → a.increment_dataframe ms = some a' →
      a'.df.map Row.bar = (evict ms a.df).map Row.bar ∧ a'.buffer = []) := by
  constructor
  · intro b bs a' hbuf hmax hinc
    have hdrop := increment_dropLast ms a a' hinc
    have happ : appended_df ms a = a.df ++ [⟨b, blankDerived ms.derived_columns⟩] := by
      unfold appended_df
      rw [hbuf]
      rfl
    rw [happ, evict_concat ms a.df _ hmax, List.dropLast_concat] at hdrop
    exact hdrop
  · intro a' hbuf hinc
    obtain ⟨hmb, hbuf', -⟩ := increment_map_bar ms a a' hinc
    have happ : appended_df ms a = a.df := by
      unfold appended_df
      rw [hbuf]
      rfl
    rw [happ] at hmb
    rw [hbuf] at hbuf'
    exact ⟨hmb, hbuf'⟩

/-- Witness for `C8_bar_immutability`: one concrete admission preserves the
earlier admitted row exactly. -/
theorem C8_bar_immutability_witness :
    Asset.increment_dataframe msNoWarm assetOneRowOnePending = some assetTwoRows ∧
    assetTwoRows.df.dropLast =
      (if assetOneRowOnePending.df.length + 1 > msNoWarm.max_rows_in_df
       then assetOneRowOnePending.df.tail else assetOneRowOnePending.df) := by
  have h : Asset.increment_dataframe msNoWarm assetOneRowOnePending = some assetTwoRows := by
    decide
  exact ⟨h, (C8_bar_immutability msNoWarm assetOneRowOnePending).1 (sampleBar 2 0) []
    assetTwoRows rfl (by decide) h⟩

/-- Claim C10 (confirmed): on a non-empty Window, `Asset.price` returns the
`vwap` field of the tail bar (not its `close` — the last conjunct), and the
latest-timestamp / latest-datetime reads return the tail bar's `timestamp`
and `datetime` fields. -/
theorem C10_latest_reads (a : Asset) (last : Row) (h : a.df.getLast? = some last) :
    a.price = some last.bar.vwap ∧
    a.timestampRead = some last.bar.timestamp ∧
    a.datetimeRead = some last.bar.datetime ∧
    (last.bar.vwap ≠ last.bar.close → a.price ≠ some last.bar.close) := by
  unfold Asset.price Asset.timestampRead Asset.datetimeRead
  rw [h]
  refine ⟨rfl, rfl, rfl, ?_⟩
  intro hne hcontra
  exact hne (Option.some.inj hcontra)

/-- Witness for `C10_latest_reads` on a concrete asset whose tail bar has
vwap 7 and close 5. -/
theorem C10_latest_reads_witness :
    Asset.price assetPriced = some barVwap.vwap ∧
    Asset.timestampRead assetPriced = some barVwap.timestamp ∧
    Asset.datetimeRead assetPriced = some barVwap.datetime ∧
    Asset.price assetPriced ≠ some barVwap.close := by
  have h := C10_latest_reads assetPriced { bar := barVwap, derived := [] } rfl
  exact ⟨h.1, h.2.1, h.2.2.1, h.2.2.2 (by decide)⟩

theorem watch_asset_ref (m : AssetManager) (s : String) :
    (m.watch_asset s)._reference_symbol = m._reference_symbol := by
  unfold AssetManager.watch_asset
  split
  · rfl
  · rfl

theorem unwatch_asset_ref (m : AssetManager) (s : String) :
    (m.unwatch_asset s).2._reference_symbol = m._reference_symbol := by
  unfold AssetManager.unwatch_asset
  split
  · split
    · rfl
    · rfl
  · rfl

theorem watch_preserves_ref (m : AssetManager) (s : String)
    (h : m.is_watching_asset m._reference_symbol = true) :
    (m.watch_asset s).is_watching_asset (m.watch_asset s)._reference_symbol = true := by
  rw [watch_asset_ref]
  unfold AssetManager.watch_asset
  split
  · exact h
  · show (m.watchedAssets ++ [(s, Asset.init s)]).any
      (fun p => p.1 == m._reference_symbol) = true
    rw [List.any_append]
    unfold AssetManager.is_watching_asset at h
    rw [h]
    rfl

theorem unwatch_preserves_ref (m : AssetManager) (s : String)
    (h : m.is_watching_asset m._reference_symbol = true) :
    (m.unwatch_asset s).2.is_watching_asset (m.unwatch_asset s).2._reference_symbol = true := by
  rw [unwatch_asset_ref]
  unfold AssetManager.unwatch_asset
  split
  · split
    · exact h
    · show (m.watchedAssets.filter (fun p => !(p.1 == s))).any
        (fun p => p.1 == m._reference_symbol) = true
      unfold AssetManager.is_watching_asset at h
      rw [List.any_eq_true] at h
      obtain ⟨p, hp, hpr⟩ := h
      rw [List.any_eq_true]
      refine ⟨p, List.mem_filter.mpr ⟨hp, ?_⟩, hpr⟩
      have hps : p.1 = m._reference_symbol := by
        exact beq_iff_eq.mp hpr
      have hsr : ¬ (s == m._reference_symbol) = true := by assumption
      rw [Bool.not_eq_true']
      rw [beq_eq_false_iff_ne]
      intro hcontra
      exact hsr (beq_iff_eq.mpr (by rw [← hcontra, hps]))
  · exact h

theorem run_reg_ops_ref (ops : List RegOp) :
    ∀ m : AssetManager, m.is_watching_asset m._reference_symbol = true →
    (run_reg_ops m ops).is_watching_asset (run_reg_ops m ops)._reference_symbol = true := by
  induction ops with
  | nil =>
    intro m h
    exact h
  | cons op rest ih =>
    intro m h
    show (run_reg_ops (apply_reg_op m op) rest).is_watching_asset _ = true
    refine ih (apply_reg_op m op) ?_
    cases op with
    | watch s => exact watch_preserves_ref m s h
    | unwatch s => exact unwatch_preserves_ref m s h

/-- Claim C9 (confirmed): `unwatch_asset` on a tracked non-reference symbol
removes it and reports success; on the tracked reference symbol it removes
nothing but still reports success; on an untracked symbol it reports
failure and changes nothing. The reference instrument is tracked right
after construction and remains tracked after any sequence of watch/unwatch
calls. -/
theorem C9_unwatch_contract (m : AssetManager) (symbol : String) :
    (m.is_watching_asset symbol = true → symbol ≠ m._reference_symbol →
      (m.unwatch_asset symbol).1 = true ∧
      (m.unwatch_asset symbol).2.is_watching_asset symbol = false) ∧
    (symbol = m._reference_symbol →
      m.is_watching_asset symbol = true →
      (m.unwatch_asset symbol).1 = true ∧ (m.unwatch_asset symbol).2 = m) ∧
    (m.is_watching_asset symbol = false →
      (m.unwatch_asset symbol).1 = false ∧ (m.unwatch_asset symbol).2 = m) ∧
    AssetManager.init.is_watching_asset AssetManager.init._reference_symbol = true ∧
    (∀ ops : List RegOp,
      (run_reg_ops AssetManager.init ops).is_watching_asset
        (run_reg_ops AssetManager.init ops)._reference_symbol = true) := by
  have hinit : AssetManager.init.is_watching_asset AssetManager.init._reference_symbol = true := by
    decide
  refine ⟨?_, ?_, ?_, hinit, fun ops => run_reg_ops_ref ops AssetManager.init hinit⟩
  · intro hw hne
    have hbeq : (symbol == m._reference_symbol) = false := beq_eq_false_iff_ne.mpr hne
    constructor
    · show (m.unwatch_asset symbol).1 = true
      unfold AssetManager.unwatch_asset
      rw [hw, hbeq]
      rfl
    · show (m.unwatch_asset symbol).2.is_watching_asset symbol = false
      unfold AssetManager.unwatch_asset
      rw [hw, hbeq]
      show ({ m with watchedAssets := m.watchedAssets.filter (fun p => !(p.1 == symbol))
        } : AssetManager).is_watching_asset symbol = false
      unfold AssetManager.is_watching_asset
      rw [List.any_eq_false]
      intro p hp
      have h2 := (List.mem_filter.mp hp).2
      rw [Bool.not_eq_true'] at h2
      simp [h2]
  · intro hs hw
    have hbeq : (symbol == m._reference_symbol) = true := beq_iff_eq.mpr hs
    constructor
    · show (m.unwatch_asset symbol).1 = true
      unfold AssetManager.unwatch_asset
      rw [hw, hbeq]
      rfl
    · show (m.unwatch_asset symbol).2 = m
      unfold AssetManager.unwatch_asset
      rw [hw, hbeq]
      rfl
  · intro hw
    constructor
    · show (m.unwatch_asset symbol).1 = false
      unfold AssetManager.unwatch_asset
      rw [hw]
      rfl
    · show (m.unwatch_asset symbol).2 = m
      unfold AssetManager.unwatch_asset
      rw [hw]
      rfl

/-- Witness for `C9_unwatch_contract`: on a manager tracking the reference
symbol `"SPY"` and one extra symbol `"X"`, unwatching `"X"` removes it with
success while unwatching `"SPY"` is a successful no-op. -/
theorem C9_unwatch_contract_witness :
    ((AssetManager.init.watch_asset ("X" : String)).unwatch_asset ("X" : String)).1 = true ∧
    ((AssetManager.init.watch_asset ("X" : String)).unwatch_asset
      ("X" : String)).2.is_watching_asset ("X" : String) = false ∧
    ((AssetManager.init.watch_asset ("X" : String)).unwatch_asset ("SPY" : String)).1 = true ∧
    ((AssetManager.init.watch_asset ("X" : String)).unwatch_asset ("SPY" : String)).2 =
      AssetManager.init.watch_asset ("X" : String) := by
  have h1 := (C9_unwatch_contract (AssetManager.init.watch_asset ("X" : String))
    ("X" : String)).1 (by decide) (by decide)
  have h2 := (C9_unwatch_contract (AssetManager.init.watch_asset ("X" : String))
    ("SPY" : String)).2.1 (by decide) (by decide)
  exact ⟨h1.1, h1.2, h2.1, h2.2⟩

/-- `advance()` with every PendingBuffer non-empty: the channel is not
touched, each asset is incremented once. -/
theorem advance_no_refill (ms : MachineSettings) (m : AssetManager)
    (h : m.watchedAssets.any (fun p => p.2.buffer.isEmpty) = false) :
    AssetManager.increment_dataframes ms m =
      Except.map (fun as => { m with watchedAssets := as }) (incrementAll ms m.watchedAssets) := by
  unfold AssetManager.increment_dataframes
  simp only [h, Bool.false_eq_true, if_false]
  cases hi : incrementAll ms m.watchedAssets with
  | ok as => simp [Except.map]
  | error e => simp [Except.map]

/-- `advance()` needing a refill when the channel's next item is the
terminal sentinel: `StopIteration` (`EndOfSimulation`). -/
theorem advance_sentinel (ms : MachineSettings) (m : AssetManager) (rest : List QueueMsg)
    (h : m.watchedAssets.any (fun p => p.2.buffer.isEmpty) = true)
    (hq : m.queue = QueueMsg.done :: rest) :
    AssetManager.increment_dataframes ms m = .error .endOfSimulation := by
  unfold AssetManager.increment_dataframes AssetManager._populate_buffers
  simp only [h, if_true, hq]

/-- `advance()` needing a refill when the channel's next item is neither a
chunk mapping nor the sentinel: `TypeError` (`InvalidChunkType`). -/
theorem advance_invalid (ms : MachineSettings) (m : AssetManager) (rest : List QueueMsg)
    (h : m.watchedAssets.any (fun p => p.2.buffer.isEmpty) = true)
    (hq : m.queue = QueueMsg.other :: rest) :
    AssetManager.increment_dataframes ms m = .error .invalidChunkType := by
  unfold AssetManager.increment_dataframes AssetManager._populate_buffers
  simp only [h, if_true, hq]

/-- `advance()` needing a refill when the channel's next item is a chunk
whose assignments succeed: all buffers are reassigned from the chunk, the
chunk is consumed, then each asset is incremented once. -/
theorem advance_chunk (ms : MachineSettings) (m : AssetManager)
    (data : List (String × List Bar)) (rest : List QueueMsg)
    (assets1 : List (String × Asset))
    (h : m.watchedAssets.any (fun p => p.2.buffer.isEmpty) = true)
    (hq : m.queue = QueueMsg.chunk data :: rest)
    (hassign : assignBuffers m.watchedAssets data = .ok assets1) :
    AssetManager.increment_dataframes ms m =
      Except.map (fun as => { m with watchedAssets := as, queue := rest })
        (incrementAll ms assets1) := by
  unfold AssetManager.increment_dataframes AssetManager._populate_buffers
  simp only [h, if_true, hq, hassign]
  cases hi : incrementAll ms assets1 with
  | ok as => simp [Except.map]
  | error e => simp [Except.map]

/-- A successful per-asset increment pass calls `increment_dataframe`
exactly once on every registry entry, in order, keeping the symbols and
popping each buffer's head. -/
theorem incrementAll_spec (ms : MachineSettings) :
    ∀ (assets assets' : List (String × Asset)), incrementAll ms assets = .ok assets' →
    List.Forall₂ (fun p q => p.1 = q.1 ∧ p.2.increment_dataframe ms = some q.2 ∧
      q.2.buffer = p.2.buffer.tail) assets assets' := by
  intro assets
  induction assets with
  | nil =>
    intro assets' h
    unfold incrementAll at h
    obtain rfl := Except.ok.inj h
    exact List.Forall₂.nil
  | cons p rest ih =>
    intro assets' h
    obtain ⟨s, a⟩ := p
    cases hinc : a.increment_dataframe ms with
    | none =>
      simp only [incrementAll, hinc] at h
      exact absurd h (by simp)
    | some a1 =>
      cases hrest : incrementAll ms rest with
      | error e =>
        simp only [incrementAll, hinc, hrest] at h
        exact absurd h (by simp)
      | ok rest1 =>
        simp only [incrementAll, hinc, hrest] at h
        obtain rfl := Except.ok.inj h
        refine List.Forall₂.cons ⟨rfl, hinc, ?_⟩ (ih rest1 hrest)
        exact (increment_map_bar ms a a1 hinc).2.1

/-- What a successful chunk assignment does to the registry, entry by entry:
symbols, windows and warm-up flags are untouched, and each entry's buffer is
either untouched (when the chunk does not name its symbol) or replaced —
empty or not — by that symbol's payload from this same chunk. -/
theorem assignBuffers_spec :
    ∀ (data : List (String × List Bar)) (assets assets1 : List (String × Asset)),
    assignBuffers assets data = .ok assets1 →
    List.Forall₂ (fun p q => q.1 = p.1 ∧ q.2.symbol = p.2.symbol ∧ q.2.df = p.2.df ∧
      q.2._df_has_start_buffer_rows = p.2._df_has_start_buffer_rows ∧
      ((p.1 ∉ data.map Prod.fst ∧ q.2.buffer = p.2.buffer) ∨
       (∃ hb ∈ data, hb.1 = p.1 ∧ q.2.buffer = hb.2))) assets assets1 := by
  intro data
  induction data with
  | nil =>
    intro assets assets1 h
    unfold assignBuffers at h
    obtain rfl := Except.ok.inj h
    rw [List.forall₂_same]
    intro p hp
    exact ⟨rfl, rfl, rfl, rfl, Or.inl ⟨by simp, rfl⟩⟩
  | cons hd rest ih =>
    intro assets assets1 h
    obtain ⟨s0, b0⟩ := hd
    cases hset : setBuffer assets s0 b0 with
    | none =>
      simp only [assignBuffers, hset] at h
      exact absurd h (by simp)
    | some A1 =>
      simp only [assignBuffers, hset] at h
      have hih := ih A1 assets1 h
      have hmap : A1 = assets.map (fun p =>
          if p.1 == s0 then (p.1, { p.2 with buffer := b0 }) else p) := by
        unfold setBuffer at hset
        cases hany : assets.any (fun p => p.1 == s0) with
        | false => rw [hany] at hset; exact absurd hset (by simp)
        | true =>
          rw [hany] at hset
          simp only [if_true] at hset
          exact (Option.some.inj hset).symm
      rw [hmap] at hih
      have hih2 := List.forall₂_map_left_iff.mp hih
      refine List.Forall₂.imp ?_ hih2
      intro p q hpq
      cases hps : (p.1 == s0) with
      | true =>
        rw [hps] at hpq
        simp only [if_true] at hpq
        obtain ⟨h1, h2, h3, h4, h5⟩ := hpq
        refine ⟨h1, h2, h3, h4, Or.inr ?_⟩
        rcases h5 with ⟨-, hb⟩ | ⟨hb, hbm, hb1, hb2⟩
        · exact ⟨(s0, b0), List.mem_cons_self _ _, (beq_iff_eq.mp hps).symm, hb⟩
        · exact ⟨hb, List.mem_cons_of_mem _ hbm, hb1, hb2⟩
      | false =>
        rw [hps] at hpq
        simp only [Bool.false_eq_true, if_false] at hpq
        obtain ⟨h1, h2, h3, h4, h5⟩ := hpq
        refine ⟨h1, h2, h3, h4, ?_⟩
        rcases h5 with ⟨hnm, hb⟩ | ⟨hb, hbm, hb1, hb2⟩
        · refine Or.inl ⟨?_, hb⟩
          simp only [List.map_cons, List.mem_cons]
          rintro (hc | hc)
          · exact absurd (beq_iff_eq.mpr hc) (by simp [hps])
          · exact hnm hc
        · exact Or.inr ⟨hb, List.mem_cons_of_mem _ hbm, hb1, hb2⟩

/-- Claim C3 (confirmed): `advance()` pulls from the channel only when some
instrument's PendingBuffer is empty (first conjunct: with all buffers
non-empty the result touches only the registry, never the channel); in the
refill case a sentinel fails with `EndOfSimulation`, any item that is
neither a chunk mapping nor the sentinel fails with `InvalidChunkType`, and
a valid chunk (one whose assignments succeed, i.e. naming only tracked
symbols) is consumed and followed by exactly one `increment_dataframe` per
tracked instrument in registry order — one bar of forward progress each
(last conjunct). -/
theorem C3_advance_contract (ms : MachineSettings) (m : AssetManager) :
    (m.watchedAssets.any (fun p => p.2.buffer.isEmpty) = false →
      AssetManager.increment_dataframes ms m =
        Except.map (fun as => { m with watchedAssets := as }) (incrementAll ms m.watchedAssets)) ∧
    (m.watchedAssets.any (fun p => p.2.buffer.isEmpty) = true →
      (∀ rest, m.queue = QueueMsg.done :: rest →
        AssetManager.increment_dataframes ms m = .error .endOfSimulation) ∧
      (∀ rest, m.queue = QueueMsg.other :: rest →
        AssetManager.increment_dataframes ms m = .error .invalidChunkType) ∧
      (∀ data rest assets1, m.queue = QueueMsg.chunk data :: rest →
        assignBuffers m.watchedAssets data = .ok assets1 →
        AssetManager.increment_dataframes ms m =
          Except.map (fun as => { m with watchedAssets := as, queue := rest })
            (incrementAll ms assets1))) ∧
    (∀ assets assets', incrementAll ms assets = .ok assets' →
      List.Forall₂ (fun p q => p.1 = q.1 ∧ p.2.increment_dataframe ms = some q.2 ∧
        q.2.buffer = p.2.buffer.tail) assets assets') :=
  ⟨advance_no_refill ms m,
   fun h => ⟨fun rest hq => advance_sentinel ms m rest h hq,
             fun rest hq => advance_invalid ms m rest h hq,
             fun data rest assets1 hq ha => advance_chunk ms m data rest assets1 h hq ha⟩,
   incrementAll_spec ms⟩

/-- Witness for `C3_advance_contract`: a fresh manager whose only buffer is
empty and whose channel holds one valid chunk takes the chunk path. -/
theorem C3_advance_contract_witness :
    AssetManager.increment_dataframes msNoWarm mgrOneChunk =
      Except.map
        (fun as => { mgrOneChunk with watchedAssets := as, queue := ([] : List QueueMsg) })
        (incrementAll msNoWarm assetsSpyRefilled) :=
  ((C3_advance_contract msNoWarm mgrOneChunk).2.1 (by decide)).2.2
    chunkSpyDay1 [] assetsSpyRefilled rfl rfl

/-- Claim C6 is FALSE on the code in its "refilled only when it is empty /
no instrument's non-empty pending rows are replaced" part: with `"SPY"`'s
buffer empty but `"X"` still holding a pending day-9 bar, one `advance()`
call refills — and thereby discards — `"X"`'s NON-empty buffer from the
incoming chunk: afterwards both instruments hold only the chunk's day-1
bar and the day-9 bar is gone without ever having been admitted. -/
theorem C6_counterexample :
    (mgrMisaligned.watchedAssets.map (fun p => (p.1, p.2.buffer)) =
      [(("SPY" : String), ([] : List Bar)), (("X" : String), [sampleBar 9 0])]) ∧
    ∃ m' : AssetManager,
      AssetManager.increment_dataframes msNoWarm mgrMisaligned = .ok m' ∧
      m'.watchedAssets.map (fun p => (p.1, p.2.buffer, p.2.df.map Row.bar)) =
        [(("SPY" : String), ([] : List Bar), [sampleBar 1 0]),
         (("X" : String), ([] : List Bar), [sampleBar 1 0])] := by
  refine ⟨by decide, _, rfl, by decide⟩

/-- Claim C6 (amended): the PendingBuffer is emptied strictly in FIFO order
(each admission consumes exactly the head) and no refill happens while all
tracked buffers are non-empty; but a refill triggers as soon as ANY tracked
instrument's buffer is empty and then reassigns EVERY instrument named in
the chunk simultaneously from that same chunk — including instruments whose
pending rows were not yet empty, whose rows are discarded
(see `C6_counterexample`); instruments the chunk does not name keep their
buffer. -/
theorem C6_lockstep_refill (ms : MachineSettings) (m : AssetManager) :
    (∀ a a' : Asset, a.increment_dataframe ms = some a' → a'.buffer = a.buffer.tail) ∧
    (m.watchedAssets.any (fun p => p.2.buffer.isEmpty) = false →
      AssetManager.increment_dataframes ms m =
        Except.map (fun as => { m with watchedAssets := as }) (incrementAll ms m.watchedAssets)) ∧
    (∀ data assets assets1, assignBuffers assets data = .ok assets1 →
      List.Forall₂ (fun p q => q.1 = p.1 ∧ q.2.symbol = p.2.symbol ∧ q.2.df = p.2.df ∧
        q.2._df_has_start_buffer_rows = p.2._df_has_start_buffer_rows ∧
        ((p.1 ∉ data.map Prod.fst ∧ q.2.buffer = p.2.buffer) ∨
         (∃ hb ∈ data, hb.1 = p.1 ∧ q.2.buffer = hb.2))) assets assets1) :=
  ⟨fun a a' h => (increment_map_bar ms a a' h).2.1,
   advance_no_refill ms m,
   assignBuffers_spec⟩

/-- Witness for `C6_lockstep_refill`: a concrete admission pops exactly the
buffer head. -/
theorem C6_lockstep_refill_witness :
    Asset.increment_dataframe msNoWarm assetXPending = some assetXAfter ∧
    assetXAfter.buffer = assetXPending.buffer.tail := by
  have h : Asset.increment_dataframe msNoWarm assetXPending = some assetXAfter := by
    decide
  exact ⟨h, (C6_lockstep_refill msNoWarm AssetManager.init).1 assetXPending assetXAfter h⟩

/-- Claim C5 is contradicted by the code (a code bug): `startup()`'s
warm-up fetch is supposed to cover `start_buffer_days` of trading history
ending just before `start_date`, but `add_start_buffer_data` walks the
calendar over `[start_date - start_buffer_days - 30 days, end_date - 1 day]`
and takes the LAST `start_buffer_days` trading days of that list — the
upper bound uses `end_date`, not `start_date`. On a calendar where every
day 0..99 trades, `start_date = 50`, `end_date = 90`, `start_buffer_days =
5`, the fetched range is days 85..89: it starts AFTER `start_date` and ends
just before `end_date` (the claim demands days 45..49). The drain loop and
the producer spawn order match the claim; the range computation does not. -/
theorem C5_start_buffer_range_bug :
    add_start_buffer_data_range msWarmupRange calAllDays = some (85, 89) ∧
    msWarmupRange.start_date ≤ 85 ∧
    89 = msWarmupRange.end_date - 1 := by
  refine ⟨by decide, by decide, by decide⟩

/-- The per-row filter loop, characterised: after walking all trading days
the flag pair is `(initial OR some-day-matches, initial OR some-matching-day
triggers the intraday drop)`. -/
theorem rowSurvives_fold (ms : MachineSettings) (dt : DateTime) :
    ∀ (days : List TradingDay) (init : Bool × Bool),
    (days.foldl (fun (acc : Bool × Bool) td =>
      if dt.date == td.date then
        (true, acc.2 || (!ms.time_frame_is_day &&
          (dtlt dt td.open_time || dtlt td.close_time dt)))
      else acc) init) =
    (init.1 || days.any (fun td => dt.date == td.date),
     init.2 || days.any (fun td => (dt.date == td.date) &&
       (!ms.time_frame_is_day && (dtlt dt td.open_time || dtlt td.close_time dt)))) := by
  intro days
  induction days with
  | nil =>
    intro init
    simp
  | cons td rest ih =>
    intro init
    rw [List.foldl_cons]
    cases hm : (dt.date == td.date) with
    | true =>
      simp only [hm, if_true]
      rw [ih]
      simp [List.any_cons, hm, Bool.or_assoc]
    | false =>
      simp only [hm, Bool.false_eq_true, if_false]
      rw [ih]
      simp [List.any_cons, hm]

theorem any_match_iff (days : List TradingDay) (dt : DateTime) :
    days.any (fun td => dt.date == td.date) = true ↔ ∃ td ∈ days, dt.date = td.date := by
  simp [List.any_eq_true]

theorem any_drop_false_iff (ms : MachineSettings) (days : List TradingDay) (dt : DateTime) :
    days.any (fun td => (dt.date == td.date) &&
        (!ms.time_frame_is_day && (dtlt dt td.open_time || dtlt td.close_time dt))) = false ↔
      ∀ td ∈ days, dt.date = td.date →
        (ms.time_frame_is_day = true ∨
         (dtlt dt td.open_time = false ∧ dtlt td.close_time dt = false)) := by
  rw [List.any_eq_false]
  constructor
  · intro h td htd heq
    have h2 := h td htd
    have hm : (dt.date == td.date) = true := beq_iff_eq.mpr heq
    rw [hm, Bool.true_and] at h2
    cases hday : ms.time_frame_is_day with
    | true => exact Or.inl rfl
    | false =>
      rw [hday] at h2
      simp only [Bool.not_false, Bool.true_and] at h2
      have h2b : (dtlt dt td.open_time || dtlt td.close_time dt) = false := by
        cases hx : (dtlt dt td.open_time || dtlt td.close_time dt)
        · rfl
        · exact absurd hx h2
      rcases Bool.or_eq_false_iff.mp h2b with ⟨h3, h4⟩
      exact Or.inr ⟨h3, h4⟩
  · intro h td htd
    cases hm : (dt.date == td.date) with
    | false => simp
    | true =>
      rw [Bool.true_and]
      rcases h td htd (beq_iff_eq.mp hm) with hday | ⟨h1, h2⟩
      · rw [hday]
        simp
      · rw [h1, h2]
        simp

/-- A raw row survives the Chunk Fetcher's filter iff its date matches some
trading session and — unless the time frame unit is `Day` — its timestamp
lies within the open/close bounds of every session of that date. -/
theorem rowSurvives_iff (ms : MachineSettings) (days : List TradingDay) (dt : DateTime) :
    rowSurvives ms days dt = true ↔
      ((∃ td ∈ days, dt.date = td.date) ∧
       ∀ td ∈ days, dt.date = td.date →
         (ms.time_frame_is_day = true ∨
          (dtlt dt td.open_time = false ∧ dtlt td.close_time dt = false))) := by
  unfold rowSurvives
  rw [rowSurvives_fold]
  simp only [Bool.false_or, Bool.and_eq_true, Bool.not_eq_true']
  exact and_congr (any_match_iff days dt) (any_drop_false_iff ms days dt)

theorem toBar_injective {r1 r2 : RawRow} (h : toBar r1 = toBar r2) : r1 = r2 := by
  cases r1
  cases r2
  simp only [toBar, Bar.mk.injEq] at h
  obtain ⟨h1, h2, h3, h4, h5, h6, h7, h8, -⟩ := h
  rw [RawRow.mk.injEq]
  exact ⟨h1, h2, h3, h4, h5, h6, h7, h8⟩

/-- Claim C4 (confirmed): for every raw row handed to the Chunk Fetcher, the
row is kept iff its date matches a trading Session and — when the sampling
resolution is sub-daily — its timestamp lies within the session's open/close
bounds (rows at a daily resolution are exempt from the bound check); kept
rows appear (contiguously, by construction of the list model) in the
symbol's fetched sequence under the canonical field names, with `datetime`
the instant the raw timestamp parses to (UTC normalization preserves the
instant); dropped rows are absent. The distinct-dates hypothesis reflects
that sessions are calendar days (pandas would fault on a duplicate-date
calendar before this characterisation could apply). -/
theorem C4_fetch_filter (ms : MachineSettings) (trading_days : List TradingDay)
    (raw_data : List (String × List RawRow)) (sym : String) (rows : List RawRow) (r : RawRow)
    (hmem : (sym, rows) ∈ raw_data) (hr : r ∈ rows)
    (hdistinct : trading_days.Pairwise (fun d1 d2 => d1.date ≠ d2.date)) :
    (sym, (rows.filter (fun row => rowSurvives ms trading_days row.t)).map toBar)
      ∈ _get_alpaca_data ms trading_days raw_data ∧
    (rowSurvives ms trading_days r.t = true ↔
      ((∃ td ∈ trading_days, r.t.date = td.date) ∧
       ∀ td ∈ trading_days, r.t.date = td.date →
         (ms.time_frame_is_day = true ∨
          (dtlt r.t td.open_time = false ∧ dtlt td.close_time r.t = false)))) ∧
    (rowSurvives ms trading_days r.t = true →
      toBar r ∈ (rows.filter (fun row => rowSurvives ms trading_days row.t)).map toBar) ∧
    (rowSurvives ms trading_days r.t = false →
      toBar r ∉ (rows.filter (fun row => rowSurvives ms trading_days row.t)).map toBar) ∧
    (toBar r).timestamp = r.t ∧ (toBar r).open_ = r.o ∧ (toBar r).high = r.h ∧
    (toBar r).low = r.l ∧ (toBar r).close = r.c ∧ (toBar r).volume = r.v ∧
    (toBar r).trade_count = r.n ∧ (toBar r).vwap = r.vw ∧ (toBar r).datetime = r.t := by
  refine ⟨?_, rowSurvives_iff ms trading_days r.t, ?_, ?_, rfl, rfl, rfl, rfl, rfl, rfl, rfl,
    rfl, rfl⟩
  · exact List.mem_map_of_mem
      (fun p => (p.1, (p.2.filter (fun row => rowSurvives ms trading_days row.t)).map toBar))
      hmem
  · intro hs
    exact List.mem_map_of_mem toBar (List.mem_filter.mpr ⟨hr, hs⟩)
  · intro hs hin
    rw [List.mem_map] at hin
    obtain ⟨r2, hr2, heq⟩ := hin
    obtain rfl := toBar_injective heq
    have := (List.mem_filter.mp hr2).2
    rw [hs] at this
    exact absurd this (by simp)

/-- Witness for `C4_fetch_filter`: one in-bounds row of a one-session
calendar at sub-daily resolution. (On this data the filter keeps `rawIn` and
drops `rawOut`, as the last conjunct records.) -/
theorem C4_fetch_filter_witness :
    ((("SPY" : String), (([rawIn, rawOut]).filter
        (fun row => rowSurvives msMinute [sessionDay1] row.t)).map toBar)
      ∈ _get_alpaca_data msMinute [sessionDay1] rawDataDay1 ∧
    (rowSurvives msMinute [sessionDay1] rawIn.t = true ↔
      ((∃ td ∈ [sessionDay1], rawIn.t.date = td.date) ∧
       ∀ td ∈ [sessionDay1], rawIn.t.date = td.date →
         (msMinute.time_frame_is_day = true ∨
          (dtlt rawIn.t td.open_time = false ∧ dtlt td.close_time rawIn.t = false)))) ∧
    (rowSurvives msMinute [sessionDay1] rawIn.t = true →
      toBar rawIn ∈ (([rawIn, rawOut]).filter
        (fun row => rowSurvives msMinute [sessionDay1] row.t)).map toBar) ∧
    (rowSurvives msMinute [sessionDay1] rawIn.t = false →
      toBar rawIn ∉ (([rawIn, rawOut]).filter
        (fun row => rowSurvives msMinute [sessionDay1] row.t)).map toBar) ∧
    (toBar rawIn).timestamp = rawIn.t ∧ (toBar rawIn).open_ = rawIn.o ∧
    (toBar rawIn).high = rawIn.h ∧ (toBar rawIn).low = rawIn.l ∧
    (toBar rawIn).close = rawIn.c ∧ (toBar rawIn).volume = rawIn.v ∧
    (toBar rawIn).trade_count = rawIn.n ∧ (toBar rawIn).vwap = rawIn.vw ∧
    (toBar rawIn).datetime = rawIn.t) ∧
    (([rawIn, rawOut]).filter (fun row => rowSurvives msMinute [sessionDay1] row.t)).map toBar
      = [toBar rawIn] := by
  refine ⟨?_, by decide⟩
  exact C4_fetch_filter msMinute [sessionDay1] rawDataDay1 ("SPY" : String)
    [rawIn, rawOut] rawIn (by decide) (by decide) (by decide)
